import Mathlib

/-!
Verification development for the `python4geosciences` teaching notebooks
(netCDF notebook and maps notebook).  The notebooks are linear scripts
delegating to external libraries; the embedding below translates the
notebook cells into Lean, with rationals standing in for the mathematical
real values computed in float64, `Option ℚ` for a float that may be NaN
(`none` = NaN), lists for numpy arrays, and `Except` for Python
exceptions.  External library routines that the notebooks merely call
(`np.sin`, `matplotlib.tri.Triangulation`, `LinearTriInterpolator`) are
abstract parameters; library behaviour the claims speak about directly
(`netCDF4.num2date`, dataset reads, numpy indexing) is modelled from the
spec, marked as such in doc comments.
-/

namespace Py4Geo

/-! ### The synthetic-wave gridding cell (netCDF notebook, "Creating NetCDF files")

Source:
```
Ndatapoints = 1000
Ntimes = 20
Nbad = 200
xdata = np.random.rand(Ndatapoints)
ydata = np.random.rand(Ndatapoints)
time = np.arange(Ntimes)
fdata = np.sin((xdata+ydata)[np.newaxis, :]*5.0 + time[:, np.newaxis]/3.0)
idx = np.arange(fdata.size)
np.random.shuffle(idx)
fdata.flat[idx[:Nbad]] = np.nan
ygrid, xgrid = np.mgrid[0:1:60j, 0:1:50j]
fgrid = np.ma.empty((Ntimes, 60, 50), 'd')
for n in range(Ntimes):
    igood = ~np.isnan(fdata[n])
    t = tri.Triangulation(xdata[igood], ydata[igood])
    interp = tri.LinearTriInterpolator(t, fdata[n][igood])
    fgrid[n] = interp(xgrid, ygrid)
```
`np.random.rand` and `np.random.shuffle` are the RNG: `xdata`, `ydata`
and the shuffled `idx` are parameters of the embedding (with the
hypothesis, true of `np.random.shuffle(np.arange(N))`, that `idx` is a
permutation of `range N`).  `np.sin` is an abstract function `sinq`:
applied to a finite float it always returns a finite (non-NaN) value,
which the embedding reflects by producing `some _` entries. -/

/-- `Ndatapoints = 1000`. -/
def Ndatapoints : ℕ := 1000

/-- `Ntimes = 20`. -/
def Ntimes : ℕ := 20

/-- `Nbad = 200`. -/
def Nbad : ℕ := 200

/-- `fdata = np.sin((xdata+ydata)[np.newaxis, :]*5.0 + time[:, np.newaxis]/3.0)`
with `time = np.arange(Ntimes)`: row `n`, column `i` holds
`sin((xdata[i]+ydata[i])*5.0 + n/3.0)`, a finite (non-NaN) value. -/
def fdata (sinq : ℚ → ℚ) (xdata ydata : List ℚ) : List (List (Option ℚ)) :=
  (List.range Ntimes).map fun (n : ℕ) =>
    (xdata.zip ydata).map fun p =>
      some (sinq ((p.1 + p.2) * 5 + (n : ℚ) / 3))

/-- `fdata.flat[idx[:Nbad]] = np.nan`: the entry at row `n`, column `i`
(flat row-major index `n * Ndatapoints + i`) becomes NaN when that flat
index is among the first `Nbad` entries of `idx`, and is untouched
otherwise. -/
def injectBad (idx : List ℕ) (fd : List (List (Option ℚ))) : List (List (Option ℚ)) :=
  fd.enum.map fun nrow =>
    nrow.2.enum.map fun iv =>
      if nrow.1 * Ndatapoints + iv.1 ∈ idx.take Nbad then none else iv.2

/-- `ygrid, xgrid = np.mgrid[0:1:60j, 0:1:50j]`, x part: a 60 × 50 array
whose entry at row `j`, column `k` is `k/49` (50 evenly spaced values
from 0 to 1 inclusive along each row). -/
def xgrid : List (List ℚ) :=
  (List.range 60).map fun _ => (List.range 50).map fun (k : ℕ) => (k : ℚ) / 49

/-- `ygrid, xgrid = np.mgrid[0:1:60j, 0:1:50j]`, y part: a 60 × 50 array
whose entry at row `j`, column `k` is `j/59`. -/
def ygrid : List (List ℚ) :=
  (List.range 60).map fun (j : ℕ) => (List.range 50).map fun _ => (j : ℚ) / 59

/-- numpy boolean-mask indexing `xs[mask]`: the elements of `xs` at the
positions where the aligned boolean mask is `True`, in order. -/
def maskSel (mask : List Bool) (xs : List α) : List α :=
  (xs.zip mask).filterMap fun p => if p.2 then some p.1 else none

/-- `igood = ~np.isnan(fdata[n])`: the boolean mask that is `True` where
the row entry is not NaN. -/
def igoodOf (row : List (Option ℚ)) : List Bool :=
  row.map fun v => !v.isNone

/-- Elementwise evaluation `interp(xgrid, ygrid)` of a callable on the
aligned 60 × 50 coordinate arrays. -/
def evalOnGrid (f : ℚ → ℚ → V) : List (List V) :=
  (xgrid.zip ygrid).map fun rr =>
    (rr.1.zip rr.2).map fun p => f p.1 p.2

/-- One iteration of the interpolation loop:
`igood = ~np.isnan(fdata[n])`;
`t = tri.Triangulation(xdata[igood], ydata[igood])`;
`interp = tri.LinearTriInterpolator(t, fdata[n][igood])`;
`fgrid[n] = interp(xgrid, ygrid)`.
`triang` and `linInterp` are the external `matplotlib.tri` routines,
abstract here; `T` is the type of triangulation objects and `V` the
value type produced by the (masked-array valued) interpolant. -/
def fgridRow (triang : List ℚ → List ℚ → T) (linInterp : T → List (Option ℚ) → ℚ → ℚ → V)
    (xdata ydata : List ℚ) (row : List (Option ℚ)) : List (List V) :=
  let igood := igoodOf row
  let t := triang (maskSel igood xdata) (maskSel igood ydata)
  let interp := linInterp t (maskSel igood row)
  evalOnGrid interp

/-- The full interpolation loop `for n in range(Ntimes): ... fgrid[n] = ...`:
`fgrid` stacks the per-time-step gridded fields. -/
def fgrid (triang : List ℚ → List ℚ → T) (linInterp : T → List (Option ℚ) → ℚ → ℚ → V)
    (sinq : ℚ → ℚ) (xdata ydata : List ℚ) (idx : List ℕ) : List (List (List V)) :=
  let fd := injectBad idx (fdata sinq xdata ydata)
  (List.range Ntimes).map fun n =>
    fgridRow triang linInterp xdata ydata (fd.getD n [])

/-- The scattered points selected at one time step, with their values:
the triple `(xdata[i], ydata[i], fdata[n][i])` at exactly the positions
`i` where `fdata[n][i]` is not NaN. -/
def selectedPoints (xdata ydata : List ℚ) (row : List (Option ℚ)) :
    List ℚ × List ℚ × List (Option ℚ) :=
  let igood := igoodOf row
  (maskSel igood xdata, maskSel igood ydata, maskSel igood row)

/-- In-memory results of the "Creating NetCDF files" cell: the arrays
`xdata, ydata, time, fdata, xgrid, ygrid, fgrid` bound by the cell. -/
structure GriddingCellMem (V : Type) where
  xdataOut : List ℚ
  ydataOut : List ℚ
  timeOut : List ℕ
  fdataOut : List (List (Option ℚ))
  xgridOut : List (List ℚ)
  ygridOut : List (List ℚ)
  fgridOut : List (List (List V))

/-- The whole "Creating NetCDF files" cell as a state transformer over an
arbitrary external-world state `σ` (filesystem / open netCDF handles).
The from-scratch netCDF writer in the cell is entirely commented out in
the source, so the cell's embedding only produces the in-memory arrays
and passes the external state through. -/
def griddingCell (triang : List ℚ → List ℚ → T) (linInterp : T → List (Option ℚ) → ℚ → ℚ → V)
    (sinq : ℚ → ℚ) (xdata ydata : List ℚ) (idx : List ℕ) (fs : σ) :
    GriddingCellMem V × σ :=
  (⟨xdata, ydata, List.range Ntimes, injectBad idx (fdata sinq xdata ydata),
    xgrid, ygrid, fgrid triang linInterp sinq xdata ydata idx⟩, fs)

/-! ### The hurricane-track reading loop (maps notebook, cell-20)

Source:
```
tracks = []
for decade in range(len(hurricanes.Document.Folder.Folder)):
    doc = hurricanes.Document.Folder.Folder[decade]
    try:
        for storm in range(len(doc.Document.Placemark)):
            track_text = ....Placemark[storm].LineString.coordinates.text
            track = []
            for location in track_text.split():
                track.append(np.fromstring(location, sep=','))
            tracks.append(np.array(track)[:, :2])
    except:
        pass  # there is more recent data to be had here...
for track in tracks:
    plt.plot(track[:, 0], track[:, 1], '-k', lw=0.2)
```
The KML parsing (`pykml`, `track_text.split()`, `np.fromstring`) is
library work; a storm record is embedded as either "has no `LineString`
(the attribute access raises)" or its already-tokenised coordinate rows,
each row the list of comma-separated numbers of one whitespace-separated
location token.  A decade record is `none` when looking up its
`Document.Placemark` raises, else its list of storm records. -/

/-- A storm `Placemark`: either one whose `.LineString.coordinates.text`
access raises, or the parsed coordinate rows (one list of numbers per
whitespace-separated location token, as produced by `np.fromstring`). -/
inductive StormRec where
  | noLine : StormRec
  | line (locs : List (List ℚ)) : StormRec

/-- A decade folder: `none` when `len(doc.Document.Placemark)` raises
(no placemarks), else the storm records. -/
def DecadeRec : Type := Option (List StormRec)

/-- `np.array(track)[:, :2]` on the list of coordinate rows of one storm:
`np.array` yields a 2-D numeric array only when the rows are nonempty and
all of one length (otherwise the subsequent indexing raises), and the
column slice `[:, :2]` then keeps the first two entries of every row. -/
def mkTrack (locs : List (List ℚ)) : Except Unit (List (List ℚ)) :=
  match locs with
  | [] => .error ()
  | l0 :: rest =>
    if rest.all fun r => r.length = l0.length then
      .ok ((l0 :: rest).map fun r => r.take 2)
    else
      .error ()

/-- Processing one storm of the inner loop: extract the coordinate text
(raising when there is no `LineString`), parse each location token and
build `np.array(track)[:, :2]`. -/
def processStorm : StormRec → Except Unit (List (List ℚ))
  | .noLine => .error ()
  | .line locs => mkTrack locs

/-- The inner `for storm in ...` loop wrapped in the `try`: each storm's
track is appended to `tracks` as it is produced; an exception while
processing one storm aborts the rest of the decade but keeps everything
appended so far. -/
def runStorms (tracks : List (List (List ℚ))) : List StormRec → List (List (List ℚ))
  | [] => tracks
  | s :: rest =>
    match processStorm s with
    | .ok t => runStorms (tracks ++ [t]) rest
    | .error _ => tracks

/-- One decade of the outer loop: the `try: ... except: pass` body.  A
raise anywhere inside — including before the first storm — is swallowed
and leaves `tracks` as accumulated so far. -/
def processDecade (tracks : List (List (List ℚ))) : DecadeRec → List (List (List ℚ))
  | none => tracks
  | some ss => runStorms tracks ss

/-- The outer `for decade in ...` loop: every decade is processed in
order, exceptions swallowed per decade. -/
def runDecades (tracks : List (List (List ℚ))) : List DecadeRec → List (List (List ℚ))
  | [] => tracks
  | d :: rest => runDecades (processDecade tracks d) rest

/-- The tracks successfully parsed from a list of storms, in order. -/
def okTracks (ss : List StormRec) : List (List (List ℚ)) :=
  ss.filterMap fun s => (processStorm s).toOption

/-- Number of iterations the inner storm loop performs on a storm list
(an aborted decade stops at the raising storm). -/
def stormLoopSteps : List StormRec → ℕ
  | [] => 0
  | s :: rest =>
    match processStorm s with
    | .ok _ => stormLoopSteps rest + 1
    | .error _ => 1

/-- Number of iterations the outer decade loop performs: one per decade,
always (exceptions are swallowed, never propagated). -/
def decadeLoopSteps : List DecadeRec → ℕ
  | [] => 0
  | _ :: rest => decadeLoopSteps rest + 1

/-! ### The netCDF dataset read model (netCDF notebook)

The dataset object is managed by the external `netCDF4` library; the
notebooks only read from it (`nc.history`, `nc.variables['lon']`,
`nc.dimensions['lon']`, `len(...)`, `.keys()`, `nc['sst']`,
`nc['lon'][:]`, `nc['sst'][0]`). -/

/-- Modelled from the spec: a netCDF variable as the library presents it
— named dimensions, attributes, and (up to 3-D) array data. -/
structure NCVariable where
  dims : List String
  varAttrs : List (String × String)
  data : List (List (List ℚ))
deriving DecidableEq

/-- Modelled from the spec: "a gridded dataset abstraction (dimensions,
variables, global/variable attributes)". -/
structure Dataset where
  dimensions : List (String × ℕ)
  vars : List (String × NCVariable)
  globalAttrs : List (String × String)
deriving DecidableEq

/-- The read operations the notebooks perform on an open dataset. -/
inductive ReadOp where
  | globalAttr (name : String)
  | getVariable (name : String)
  | getDimension (name : String)
  | dimLength (name : String)
  | dimKeys
  | varKeys
  | sliceAll (name : String)
  | sliceAt (name : String) (i : ℕ)

/-- Value returned by a read operation. -/
inductive ReadValue where
  | str (s : Option String)
  | varObj (v : Option NCVariable)
  | dimObj (v : Option (String × ℕ))
  | len (n : Option ℕ)
  | keys (ks : List String)
  | arr3 (a : List (List (List ℚ)))
  | arr2 (a : List (List ℚ))

/-- Modelled from the spec: each notebook read is a pure query of the
dataset ("read-only views into library-managed objects"); the dataset
state is passed through untouched. -/
def applyRead (ds : Dataset) : ReadOp → ReadValue × Dataset
  | .globalAttr n => (.str (ds.globalAttrs.lookup n), ds)
  | .getVariable n => (.varObj (ds.vars.lookup n), ds)
  | .getDimension n => (.dimObj ((ds.dimensions.lookup n).map fun l => (n, l)), ds)
  | .dimLength n => (.len (ds.dimensions.lookup n), ds)
  | .dimKeys => (.keys (ds.dimensions.map Prod.fst), ds)
  | .varKeys => (.keys (ds.vars.map Prod.fst), ds)
  | .sliceAll n => (.arr3 (((ds.vars.lookup n).map NCVariable.data).getD []), ds)
  | .sliceAt n i => (.arr2 ((((ds.vars.lookup n).map NCVariable.data).getD []).getD i []), ds)

/-- A sequence of reads, threading the dataset state. -/
def runReads (ds : Dataset) : List ReadOp → Dataset
  | [] => ds
  | op :: rest => runReads (applyRead ds op).2 rest

/-- Modelled from the spec: the library's `nc[name]` subscript access on
a dataset searches the dataset's variables for the first one of that
name. -/
def ncGetitem (vars : List (String × NCVariable)) (name : String) : Option NCVariable :=
  match vars with
  | [] => none
  | (k, v) :: rest => if k = name then some v else ncGetitem rest name

/-- Modelled from the spec: numpy partial indexing `a[i]` of a 3-D array:
the `i`-th 2-D slice along the first axis. -/
def sliceFirst (a : List (List (List ℚ))) (i : ℕ) : List (List ℚ) :=
  a.getD i []

/-- Modelled from the spec: a full slice `m[:, :]` of a 2-D array — every
row, and of each row every entry. -/
def fullSlice2 (m : List (List ℚ)) : List (List ℚ) :=
  (m.take m.length).map fun r => r.take r.length

/-- Modelled from the spec: the fully written slice `a[i, :, :]` of a 3-D
array: the `i`-th slice along the first axis with both remaining axes
taken in full. -/
def sliceFirstFull (a : List (List (List ℚ))) (i : ℕ) : List (List ℚ) :=
  fullSlice2 (a.getD i [])

/-! ### Time conversion (netCDF notebook)

`time = netCDF4.num2date(nc['time'][:], nc['time'].units)` — the
conversion itself lives in the external `netCDF4` library and is
modelled from the spec's description of the time-encoding convention
("numeric offset + units string → calendar date"). -/

/-- Modelled from the spec: the content of a units string such as
`'days since 1800-1-1 00:00:00'` — the timestamp of the named epoch and
the length of one named unit, both on a common absolute time scale. -/
structure TimeUnits where
  epoch : ℚ
  unitLength : ℚ

/-- Modelled from the spec: `netCDF4.num2date(vals, units)` converts each
numeric offset elementwise to the calendar date obtained by advancing the
epoch of the units string by that offset in the named unit. -/
def num2date (vals : List ℚ) (u : TimeUnits) : List ℚ :=
  vals.map fun v => u.epoch + v * u.unitLength

/-! ### Helper lemmas -/

/-- The flat (row-major) view of the injected field: flat index `k`
corresponds to row `k / Ndatapoints`, column `k % Ndatapoints`, and is
NaN exactly when `k` is among the bad flat indices. -/
def flatField (sinq : ℚ → ℚ) (x y : List ℚ) (bad : List ℕ) (k : ℕ) : Option ℚ :=
  if k ∈ bad then none
  else some (sinq ((x.getD (k % Ndatapoints) 0 + y.getD (k % Ndatapoints) 0) * 5
    + ((k / Ndatapoints : ℕ) : ℚ) / 3))

theorem length_injectBad (idx : List ℕ) (fd : List (List (Option ℚ))) :
    (injectBad idx fd).length = fd.length := by
  simp [injectBad, List.enum_length]

theorem flatten_rangeMul (g : ℕ → α) :
    ∀ a b : ℕ,
      ((List.range a).map fun n => (List.range b).map fun i => g (n * b + i)).flatten =
        (List.range (a * b)).map g := by
  intro a
  induction a with
  | zero => simp
  | succ a ih =>
    intro b
    rw [List.range_succ, List.map_append, List.flatten_append, ih b, Nat.succ_mul,
      List.range_add, List.map_append]
    simp [List.map_map, Function.comp_def]

theorem countP_mem_range {t : List ℕ} {M : ℕ} (hnd : t.Nodup) (hlt : ∀ x ∈ t, x < M) :
    (List.range M).countP (fun k => decide (k ∈ t)) = t.length := by
  rw [List.countP_eq_length_filter]
  refine List.Perm.length_eq ?_
  rw [List.perm_ext_iff_of_nodup (List.Nodup.filter _ (List.nodup_range M)) hnd]
  intro a
  constructor
  · intro ha
    exact of_decide_eq_true (List.mem_filter.mp ha).2
  · intro ha
    exact List.mem_filter.mpr ⟨List.mem_range.mpr (hlt a ha), decide_eq_true ha⟩

theorem fdata_length (sinq : ℚ → ℚ) (x y : List ℚ) :
    (fdata sinq x y).length = Ntimes := by
  simp [fdata]

theorem injectBad_fdata_eq (sinq : ℚ → ℚ) (x y : List ℚ) (idx : List ℕ)
    (hx : x.length = Ndatapoints) (hy : y.length = Ndatapoints) :
    injectBad idx (fdata sinq x y) =
      (List.range Ntimes).map fun n =>
        (List.range Ndatapoints).map fun i =>
          flatField sinq x y (idx.take Nbad) (n * Ndatapoints + i) := by
  apply List.ext_getElem
  · simp [injectBad, fdata, List.enum_length]
  intro n h1 h2
  have hn : n < Ntimes := by
    simpa [injectBad, fdata, List.enum_length] using h1
  apply List.ext_getElem
  · simp [injectBad, fdata, List.enum_length, hx, hy]
  intro i g1 g2
  have hi : i < Ndatapoints := by
    simpa [injectBad, fdata, List.enum_length, hx, hy] using g1
  have hmod : (n * Ndatapoints + i) % Ndatapoints = i := by
    rw [Nat.mul_comm, Nat.mul_add_mod, Nat.mod_eq_of_lt hi]
  have hdiv : (n * Ndatapoints + i) / Ndatapoints = n := by
    rw [Nat.mul_comm, Nat.mul_add_div (by simp [Ndatapoints]),
      Nat.div_eq_of_lt hi, Nat.add_zero]
  have hxlen : i < x.length := by omega
  have hylen : i < y.length := by omega
  simp only [injectBad, fdata, flatField, List.getElem_map, List.getElem_enum,
    List.getElem_range, List.getElem_zip, hmod, hdiv,
    List.getD_eq_getElem x 0 hxlen, List.getD_eq_getElem y 0 hylen]

theorem flatten_injectBad (sinq : ℚ → ℚ) (x y : List ℚ) (idx : List ℕ)
    (hx : x.length = Ndatapoints) (hy : y.length = Ndatapoints) :
    (injectBad idx (fdata sinq x y)).flatten =
      (List.range (Ntimes * Ndatapoints)).map (flatField sinq x y (idx.take Nbad)) := by
  rw [injectBad_fdata_eq sinq x y idx hx hy, flatten_rangeMul]

theorem idx_take_nodup {idx : List ℕ}
    (hperm : idx.Perm (List.range (Ntimes * Ndatapoints))) :
    (idx.take Nbad).Nodup :=
  List.Nodup.sublist (List.take_sublist Nbad idx)
    (hperm.nodup_iff.mpr (List.nodup_range _))

theorem idx_take_lt {idx : List ℕ}
    (hperm : idx.Perm (List.range (Ntimes * Ndatapoints))) :
    ∀ k ∈ idx.take Nbad, k < Ntimes * Ndatapoints := by
  intro k hk
  exact List.mem_range.mp
    (hperm.subset ((List.take_sublist Nbad idx).subset hk))

theorem idx_take_length {idx : List ℕ}
    (hperm : idx.Perm (List.range (Ntimes * Ndatapoints))) :
    (idx.take Nbad).length = Nbad := by
  rw [List.length_take, hperm.length_eq, List.length_range]
  simp [Nbad, Ntimes, Ndatapoints]

theorem countP_isNone_injected (sinq : ℚ → ℚ) (x y : List ℚ) (idx : List ℕ)
    (hx : x.length = Ndatapoints) (hy : y.length = Ndatapoints)
    (hperm : idx.Perm (List.range (Ntimes * Ndatapoints))) :
    ((injectBad idx (fdata sinq x y)).flatten).countP (fun v => v.isNone) = Nbad := by
  rw [flatten_injectBad sinq x y idx hx hy, List.countP_map]
  have hcongr : ∀ k ∈ List.range (Ntimes * Ndatapoints),
      (((fun v : Option ℚ => v.isNone) ∘ flatField sinq x y (idx.take Nbad)) k = true ↔
        decide (k ∈ idx.take Nbad) = true) := by
    intro k _
    by_cases h : k ∈ idx.take Nbad <;> simp [flatField, h]
  rw [List.countP_congr hcongr,
    countP_mem_range (idx_take_nodup hperm) (idx_take_lt hperm),
    idx_take_length hperm]

theorem maskSel_length : ∀ (mask : List Bool) (xs : List α),
    mask.length = xs.length →
    (maskSel mask xs).length = mask.countP (fun b => b) := by
  intro mask
  induction mask with
  | nil => intro xs _; simp [maskSel]
  | cons b bs ih =>
    intro xs h
    match xs with
    | [] => simp at h
    | x :: xs =>
      have hlen : bs.length = xs.length := by simpa using h
      cases b <;>
        simp [maskSel, List.zip_cons_cons, List.filterMap_cons, List.countP_cons] <;>
        simpa [maskSel] using ih xs hlen

theorem countP_not_add (p : α → Bool) (l : List α) :
    l.countP (fun a => !p a) + l.countP p = l.length := by
  induction l with
  | nil => rfl
  | cons a l ih =>
    rw [List.countP_cons, List.countP_cons]
    cases h : p a <;> simp [h, List.length_cons] <;> omega

theorem countP_igood (row : List (Option ℚ)) :
    (igoodOf row).countP (fun b => b) + row.countP (fun v => v.isNone) =
      row.length := by
  unfold igoodOf
  rw [List.countP_map]
  exact countP_not_add (fun v => v.isNone) row

theorem injected_row (sinq : ℚ → ℚ) (x y : List ℚ) (idx : List ℕ)
    (hx : x.length = Ndatapoints) (hy : y.length = Ndatapoints)
    (n : ℕ) (hn : n < Ntimes) :
    (injectBad idx (fdata sinq x y)).getD n [] =
      (List.range Ndatapoints).map fun i =>
        flatField sinq x y (idx.take Nbad) (n * Ndatapoints + i) := by
  rw [injectBad_fdata_eq sinq x y idx hx hy]
  have hlen : n < ((List.range Ntimes).map fun n =>
      (List.range Ndatapoints).map fun i =>
        flatField sinq x y (idx.take Nbad) (n * Ndatapoints + i)).length := by
    simpa using hn
  rw [List.getD_eq_getElem _ _ hlen]
  simp

theorem row_countP_isNone_le (sinq : ℚ → ℚ) (x y : List ℚ) (idx : List ℕ)
    (hx : x.length = Ndatapoints) (hy : y.length = Ndatapoints)
    (n : ℕ) (hn : n < Ntimes) :
    ((injectBad idx (fdata sinq x y)).getD n []).countP (fun v => v.isNone) ≤
      Nbad := by
  rw [injected_row sinq x y idx hx hy n hn, List.countP_map]
  have hcongr : ∀ i ∈ List.range Ndatapoints,
      (((fun v : Option ℚ => v.isNone) ∘ fun i =>
          flatField sinq x y (idx.take Nbad) (n * Ndatapoints + i)) i = true ↔
        decide (n * Ndatapoints + i ∈ idx.take Nbad) = true) := by
    intro i _
    by_cases h : n * Ndatapoints + i ∈ idx.take Nbad <;> simp [flatField, h]
  rw [List.countP_congr hcongr, List.countP_eq_length_filter]
  have hinj : Function.Injective fun i => n * Ndatapoints + i := by
    intro a b hab
    have hab2 : n * Ndatapoints + a = n * Ndatapoints + b := hab
    omega
  have hnd : ((List.filter (fun i => decide (n * Ndatapoints + i ∈ idx.take Nbad))
      (List.range Ndatapoints)).map fun i => n * Ndatapoints + i).Nodup :=
    List.Nodup.map hinj (List.Nodup.filter _ (List.nodup_range _))
  have hsub : ((List.filter (fun i => decide (n * Ndatapoints + i ∈ idx.take Nbad))
      (List.range Ndatapoints)).map fun i => n * Ndatapoints + i) ⊆ idx.take Nbad := by
    intro k hk
    obtain ⟨i, hi, rfl⟩ := List.mem_map.mp hk
    exact of_decide_eq_true (List.mem_filter.mp hi).2
  have hle := (List.subperm_of_subset hnd hsub).length_le
  rw [List.length_map] at hle
  calc (List.filter (fun i => decide (n * Ndatapoints + i ∈ idx.take Nbad))
      (List.range Ndatapoints)).length ≤ (idx.take Nbad).length := hle
    _ ≤ Nbad := by rw [List.length_take]; exact min_le_left _ _

theorem injected_row_length (sinq : ℚ → ℚ) (x y : List ℚ) (idx : List ℕ)
    (hx : x.length = Ndatapoints) (hy : y.length = Ndatapoints)
    (n : ℕ) (hn : n < Ntimes) :
    ((injectBad idx (fdata sinq x y)).getD n []).length = Ndatapoints := by
  rw [injected_row sinq x y idx hx hy n hn]
  simp

theorem goodPoints_count (sinq : ℚ → ℚ) (x y : List ℚ) (idx : List ℕ)
    (hx : x.length = Ndatapoints) (hy : y.length = Ndatapoints)
    (n : ℕ) (hn : n < Ntimes) :
    Ndatapoints - Nbad ≤
      (maskSel (igoodOf ((injectBad idx (fdata sinq x y)).getD n [])) x).length := by
  have hrow := injected_row_length sinq x y idx hx hy n hn
  have hmask : (igoodOf ((injectBad idx (fdata sinq x y)).getD n [])).length =
      x.length := by
    unfold igoodOf
    rw [List.length_map, hrow, hx]
  rw [maskSel_length _ _ hmask]
  have h1 := countP_igood ((injectBad idx (fdata sinq x y)).getD n [])
  have h2 := row_countP_isNone_le sinq x y idx hx hy n hn
  omega

theorem runStorms_extends (ss : List StormRec) :
    ∀ tracks : List (List (List ℚ)), ∃ new, runStorms tracks ss = tracks ++ new := by
  induction ss with
  | nil => intro tracks; exact ⟨[], by simp [runStorms]⟩
  | cons s rest ih =>
    intro tracks
    cases h : processStorm s with
    | ok t =>
      obtain ⟨new, hnew⟩ := ih (tracks ++ [t])
      exact ⟨t :: new, by simp [runStorms, h, hnew]⟩
    | error e => exact ⟨[], by simp [runStorms, h]⟩

theorem processDecade_extends (d : DecadeRec) (tracks : List (List (List ℚ))) :
    ∃ new, processDecade tracks d = tracks ++ new := by
  cases d with
  | none => exact ⟨[], by simp [processDecade]⟩
  | some ss => exact runStorms_extends ss tracks

theorem runDecades_extends (ds : List DecadeRec) :
    ∀ tracks : List (List (List ℚ)), ∃ new, runDecades tracks ds = tracks ++ new := by
  induction ds with
  | nil => intro tracks; exact ⟨[], by simp [runDecades]⟩
  | cons d rest ih =>
    intro tracks
    obtain ⟨n1, h1⟩ := processDecade_extends d tracks
    obtain ⟨n2, h2⟩ := ih (processDecade tracks d)
    refine ⟨n1 ++ n2, ?_⟩
    rw [runDecades, h2, h1, List.append_assoc]

theorem runStorms_stop_at_error (s : StormRec) (post : List StormRec)
    (h : processStorm s = .error ()) :
    ∀ (pre : List StormRec) (tracks : List (List (List ℚ))),
      runStorms tracks (pre ++ s :: post) = runStorms tracks pre := by
  intro pre
  induction pre with
  | nil => intro tracks; simp [runStorms, h]
  | cons a rest ih =>
    intro tracks
    cases ha : processStorm a with
    | ok t =>
      rw [List.cons_append]
      simp only [runStorms, ha]
      exact ih _
    | error e =>
      rw [List.cons_append]
      simp only [runStorms, ha]

theorem stormLoopSteps_le (ss : List StormRec) : stormLoopSteps ss ≤ ss.length := by
  induction ss with
  | nil => simp [stormLoopSteps]
  | cons s rest ih =>
    cases h : processStorm s with
    | ok t => simp [stormLoopSteps, h]; omega
    | error e => simp [stormLoopSteps, h]

theorem decadeLoopSteps_eq (ds : List DecadeRec) : decadeLoopSteps ds = ds.length := by
  induction ds with
  | nil => rfl
  | cons d rest ih => simp [decadeLoopSteps, ih]

theorem mkTrack_rows_two {locs tr : List (List ℚ)}
    (h : ∀ r ∈ locs, 2 ≤ r.length) (hok : mkTrack locs = .ok tr) :
    ∀ r ∈ tr, r.length = 2 := by
  cases locs with
  | nil => simp [mkTrack] at hok
  | cons l0 rest =>
    simp only [mkTrack] at hok
    split at hok
    · cases hok
      intro r hr
      obtain ⟨r0, hr0, rfl⟩ := List.mem_map.mp hr
      have h2 := h r0 hr0
      simp [List.length_take]
      omega
    · simp at hok

theorem runStorms_rows_two (ss : List StormRec)
    (hs : ∀ s ∈ ss, ∀ locs, s = StormRec.line locs → ∀ r ∈ locs, 2 ≤ r.length) :
    ∀ tracks : List (List (List ℚ)),
      (∀ t ∈ tracks, ∀ r ∈ t, r.length = 2) →
      ∀ t ∈ runStorms tracks ss, ∀ r ∈ t, r.length = 2 := by
  induction ss with
  | nil => intro tracks ht; simpa [runStorms] using ht
  | cons s rest ih =>
    intro tracks ht
    have hrest : ∀ s ∈ rest, ∀ locs, s = StormRec.line locs →
        ∀ r ∈ locs, 2 ≤ r.length := by
      intro a ha
      exact hs a (List.mem_cons_of_mem s ha)
    cases h : processStorm s with
    | ok t =>
      have htr : ∀ r ∈ t, r.length = 2 := by
        cases s with
        | noLine => simp [processStorm] at h
        | line locs =>
          exact mkTrack_rows_two
            (hs (StormRec.line locs) (List.mem_cons_self _ _) locs rfl) h
      have hnew : ∀ u ∈ tracks ++ [t], ∀ r ∈ u, r.length = 2 := by
        intro u hu
        rcases List.mem_append.mp hu with hu1 | hu2
        · exact ht u hu1
        · rw [List.mem_singleton.mp hu2]; exact htr
      simpa [runStorms, h] using ih hrest (tracks ++ [t]) hnew
    | error e => simpa [runStorms, h] using ht

theorem runDecades_rows_two (ds : List DecadeRec)
    (hd : ∀ d ∈ ds, ∀ ss, d = some ss →
      ∀ s ∈ ss, ∀ locs, s = StormRec.line locs → ∀ r ∈ locs, 2 ≤ r.length) :
    ∀ tracks : List (List (List ℚ)),
      (∀ t ∈ tracks, ∀ r ∈ t, r.length = 2) →
      ∀ t ∈ runDecades tracks ds, ∀ r ∈ t, r.length = 2 := by
  induction ds with
  | nil => intro tracks ht; simpa [runDecades] using ht
  | cons d rest ih =>
    intro tracks ht
    have hrest : ∀ d ∈ rest, ∀ ss, d = some ss →
        ∀ s ∈ ss, ∀ locs, s = StormRec.line locs → ∀ r ∈ locs, 2 ≤ r.length := by
      intro a ha
      exact hd a (List.mem_cons_of_mem d ha)
    have hstep : ∀ t ∈ processDecade tracks d, ∀ r ∈ t, r.length = 2 := by
      cases d with
      | none => simpa [processDecade] using ht
      | some ss =>
        exact runStorms_rows_two ss (hd (some ss) (List.mem_cons_self _ _) ss rfl)
          tracks ht
    simpa [runDecades] using ih hrest (processDecade tracks d) hstep

theorem ncGetitem_eq_lookup (vars : List (String × NCVariable)) (name : String) :
    ncGetitem vars name = vars.lookup name := by
  induction vars with
  | nil => rfl
  | cons kv rest ih =>
    obtain ⟨k, v⟩ := kv
    rw [List.lookup_cons]
    by_cases h : name = k
    · subst h
      simp [ncGetitem]
    · have hb : (name == k) = false := beq_eq_false_iff_ne.mpr h
      have hk : ¬(k = name) := fun hh => h hh.symm
      simp [ncGetitem, hb, hk, ih]

theorem fullSlice2_eq (m : List (List ℚ)) : fullSlice2 m = m := by
  unfold fullSlice2
  rw [List.take_length]
  calc m.map (fun r => r.take r.length) = m.map id :=
        List.map_congr_left fun r _ => List.take_length r
    _ = m := List.map_id m

theorem applyRead_state (ds : Dataset) (op : ReadOp) : (applyRead ds op).2 = ds := by
  cases op <;> rfl

theorem runReads_id (ops : List ReadOp) : ∀ ds : Dataset, runReads ds ops = ds := by
  induction ops with
  | nil => intro ds; rfl
  | cons op rest ih =>
    intro ds
    rw [runReads, applyRead_state]
    exact ih ds

theorem fgridRow_eq {T V : Type} (triang : List ℚ → List ℚ → T)
    (linInterp : T → List (Option ℚ) → ℚ → ℚ → V)
    (x y : List ℚ) (row : List (Option ℚ)) :
    fgridRow triang linInterp x y row =
      evalOnGrid (linInterp
        (triang (maskSel (igoodOf row) x) (maskSel (igoodOf row) y))
        (maskSel (igoodOf row) row)) := rfl

theorem fgrid_getD {T V : Type} (triang : List ℚ → List ℚ → T)
    (linInterp : T → List (Option ℚ) → ℚ → ℚ → V)
    (sinq : ℚ → ℚ) (x y : List ℚ) (idx : List ℕ) (n : ℕ) (hn : n < Ntimes) :
    (fgrid triang linInterp sinq x y idx).getD n [] =
      fgridRow triang linInterp x y ((injectBad idx (fdata sinq x y)).getD n []) := by
  unfold fgrid
  have hlen : n < ((List.range Ntimes).map fun n =>
      fgridRow triang linInterp x y
        ((injectBad idx (fdata sinq x y)).getD n [])).length := by
    simpa using hn
  rw [List.getD_eq_getElem _ _ hlen]
  simp

/-! ### The claims -/

/-- C1: for every time step `n < Ntimes = 20`, `fgrid[n]` is obtained by
selecting exactly the scattered points whose value `fdata[n][i]` is not
NaN, building a triangulation over those points, constructing a linear
interpolant from the triangulation and the selected values, and
evaluating it on the fixed 60 × 50 regular grid `(xgrid, ygrid)`;
no other points influence `fgrid[n]` — any data whose selected points,
in order, agree with the selected points of time step `n` produces the
same gridded field. -/
theorem C1_fgrid_from_selected_points {T V : Type}
    (triang : List ℚ → List ℚ → T) (linInterp : T → List (Option ℚ) → ℚ → ℚ → V)
    (sinq : ℚ → ℚ) (xdata ydata : List ℚ) (idx : List ℕ)
    (n : ℕ) (hn : n < Ntimes) :
    ((fgrid triang linInterp sinq xdata ydata idx).getD n [] =
      evalOnGrid (linInterp
        (triang
          (maskSel (igoodOf ((injectBad idx (fdata sinq xdata ydata)).getD n [])) xdata)
          (maskSel (igoodOf ((injectBad idx (fdata sinq xdata ydata)).getD n [])) ydata))
        (maskSel (igoodOf ((injectBad idx (fdata sinq xdata ydata)).getD n []))
          ((injectBad idx (fdata sinq xdata ydata)).getD n [])))) ∧
    (∀ (xdata2 ydata2 : List ℚ) (row2 : List (Option ℚ)),
      selectedPoints xdata2 ydata2 row2 =
        selectedPoints xdata ydata ((injectBad idx (fdata sinq xdata ydata)).getD n []) →
      fgridRow triang linInterp xdata2 ydata2 row2 =
        (fgrid triang linInterp sinq xdata ydata idx).getD n []) := by
  have hmain := fgrid_getD triang linInterp sinq xdata ydata idx n hn
  constructor
  · rw [hmain, fgridRow_eq]
  · intro xdata2 ydata2 row2 hsel
    have h1 := congrArg Prod.fst hsel
    have h2 := congrArg (fun p => p.2.1) hsel
    have h3 := congrArg (fun p => p.2.2) hsel
    simp only [selectedPoints] at h1 h2 h3
    rw [hmain, fgridRow_eq, fgridRow_eq, h1, h2, h3]

/-- Witness for C1 at a concrete input: `n = 0` and trivial library
routines. -/
theorem C1_witness :
    0 < Ntimes ∧
    (fgrid (fun _ _ => ()) (fun _ _ _ _ => ()) id [] [] ([] : List ℕ)).getD 0 [] =
      evalOnGrid (fun _ _ => ()) :=
  ⟨by decide,
   (C1_fgrid_from_selected_points (fun _ _ => ()) (fun _ _ _ _ => ())
     id [] [] [] 0 (by decide)).1⟩

/-- C2: while iterating over the decades of hurricane-track records, an
exception raised while processing the storms of one decade is swallowed
and iteration continues with the next decade; every track appended
before the exception is retained — the loop only ever extends the
accumulated `tracks` list, and a raising storm discards nothing already
appended, only the remainder of its own decade. -/
theorem C2_decade_exception_swallowed (tracks : List (List (List ℚ)))
    (d : DecadeRec) (rest : List DecadeRec) :
    (runDecades tracks (d :: rest) = runDecades (processDecade tracks d) rest) ∧
    (∀ ss : List StormRec, ∃ new, runStorms tracks ss = tracks ++ new) ∧
    (∀ ds : List DecadeRec, ∃ new, runDecades tracks ds = tracks ++ new) ∧
    (∀ (pre post : List StormRec) (s : StormRec), processStorm s = .error () →
      runStorms tracks (pre ++ s :: post) = runStorms tracks pre) :=
  ⟨rfl,
   fun ss => runStorms_extends ss tracks,
   fun ds => runDecades_extends ds tracks,
   fun pre post s h => runStorms_stop_at_error s post h pre tracks⟩

/-- Witness for C2 at a concrete input: the storm without a `LineString`
raises, and the loop state is exactly preserved. -/
theorem C2_witness :
    processStorm StormRec.noLine = .error () ∧
    runStorms [] ([] ++ StormRec.noLine :: []) = runStorms [] [] :=
  ⟨rfl,
   (C2_decade_exception_swallowed [] none []).2.2.2 [] [] StormRec.noLine rfl⟩

/-- C3: the missing-value injection sets exactly `Nbad = 200` entries of
the 20 × 1000 array `fdata` to NaN: given that `idx` is a permutation of
the 20000 flat indices (what `np.random.shuffle(np.arange(fdata.size))`
produces), its first 200 entries are pairwise distinct, there are 200 of
them, exactly 200 entries of the injected array are NaN, and each entry
is NaN precisely when its flat index is among those 200, keeping its
original wave value `sin((xdata[i]+ydata[i])*5.0 + n/3.0)` otherwise. -/
theorem C3_nan_injection_exact (sinq : ℚ → ℚ) (xdata ydata : List ℚ) (idx : List ℕ)
    (hx : xdata.length = Ndatapoints) (hy : ydata.length = Ndatapoints)
    (hperm : idx.Perm (List.range (Ntimes * Ndatapoints))) :
    (idx.take Nbad).Nodup ∧
    (idx.take Nbad).length = Nbad ∧
    ((injectBad idx (fdata sinq xdata ydata)).flatten).countP
      (fun v => v.isNone) = Nbad ∧
    (∀ n i, n < Ntimes → i < Ndatapoints →
      ((injectBad idx (fdata sinq xdata ydata)).getD n []).getD i (some 0) =
        if n * Ndatapoints + i ∈ idx.take Nbad then none
        else some (sinq ((xdata.getD i 0 + ydata.getD i 0) * 5 + (n : ℚ) / 3))) := by
  refine ⟨idx_take_nodup hperm, idx_take_length hperm,
    countP_isNone_injected sinq xdata ydata idx hx hy hperm, ?_⟩
  intro n i hn hi
  rw [injected_row sinq xdata ydata idx hx hy n hn]
  have hlen : i < ((List.range Ndatapoints).map fun i =>
      flatField sinq xdata ydata (idx.take Nbad) (n * Ndatapoints + i)).length := by
    simpa using hi
  rw [List.getD_eq_getElem _ _ hlen]
  simp only [List.getElem_map, List.getElem_range]
  have hmod : (n * Ndatapoints + i) % Ndatapoints = i := by
    rw [Nat.mul_comm, Nat.mul_add_mod, Nat.mod_eq_of_lt hi]
  have hdiv : (n * Ndatapoints + i) / Ndatapoints = n := by
    rw [Nat.mul_comm, Nat.mul_add_div (by simp [Ndatapoints]),
      Nat.div_eq_of_lt hi, Nat.add_zero]
  rw [flatField, hmod, hdiv]

/-- Witness for C3 at a concrete input: constant scattered data and the
identity shuffle. -/
theorem C3_witness :
    (List.replicate Ndatapoints (0 : ℚ)).length = Ndatapoints ∧
    (List.range (Ntimes * Ndatapoints)).Perm (List.range (Ntimes * Ndatapoints)) ∧
    ((List.range (Ntimes * Ndatapoints)).take Nbad).Nodup :=
  ⟨by simp, List.Perm.refl _,
   (C3_nan_injection_exact id (List.replicate Ndatapoints 0)
     (List.replicate Ndatapoints 0) (List.range (Ntimes * Ndatapoints))
     (by simp) (by simp) (List.Perm.refl _)).1⟩

/-- C4: `netCDF4.num2date(nc['time'][:], nc['time'].units)` is the
elementwise time-encoding convention: the result has the length of the
input, and at every index `k` it is the epoch named in the units string
advanced by the numeric offset at position `k` in the named unit, so
positional order is preserved. -/
theorem C4_num2date_convention (vals : List ℚ) (u : TimeUnits) :
    (num2date vals u).length = vals.length ∧
    ∀ k, k < vals.length →
      (num2date vals u).getD k 0 = u.epoch + vals.getD k 0 * u.unitLength := by
  constructor
  · simp [num2date]
  · intro k hk
    have hk2 : k < (num2date vals u).length := by simpa [num2date] using hk
    rw [List.getD_eq_getElem _ _ hk2, List.getD_eq_getElem _ _ hk]
    simp [num2date]

/-- Witness for C4 at a concrete input. -/
theorem C4_witness :
    0 < [(3 : ℚ)].length ∧
    (num2date [(3 : ℚ)] ⟨10, 1⟩).getD 0 0 =
      (⟨10, 1⟩ : TimeUnits).epoch +
        [(3 : ℚ)].getD 0 0 * (⟨10, 1⟩ : TimeUnits).unitLength :=
  ⟨by simp, (C4_num2date_convention [(3 : ℚ)] ⟨10, 1⟩).2 0 (by simp)⟩

/-- C5: every read operation the notebooks perform on an opened dataset
leaves the dataset unchanged: after any sequence of reads the dataset —
its dimensions, variables, and attributes — is identical to its state
immediately after opening, and each single read returns the dataset
state untouched. -/
theorem C5_reads_leave_dataset_unchanged (ds : Dataset) (ops : List ReadOp) :
    runReads ds ops = ds ∧
    (runReads ds ops).dimensions = ds.dimensions ∧
    (runReads ds ops).vars = ds.vars ∧
    (runReads ds ops).globalAttrs = ds.globalAttrs ∧
    ∀ op, (applyRead ds op).2 = ds := by
  have h := runReads_id ops ds
  exact ⟨h, by rw [h], by rw [h], by rw [h], applyRead_state ds⟩

/-- C6: the from-scratch netCDF writer of the gridding cell is entirely
commented out: executing the cell leaves any external state (filesystem,
open datasets) exactly as it was, and its only effects are the in-memory
arrays `xdata, ydata, time, fdata, xgrid, ygrid, fgrid`. -/
theorem C6_netcdf_writer_inert {T V σ : Type}
    (triang : List ℚ → List ℚ → T) (linInterp : T → List (Option ℚ) → ℚ → ℚ → V)
    (sinq : ℚ → ℚ) (xdata ydata : List ℚ) (idx : List ℕ) (fs : σ) :
    (griddingCell triang linInterp sinq xdata ydata idx fs).2 = fs ∧
    (griddingCell triang linInterp sinq xdata ydata idx fs).1 =
      ⟨xdata, ydata, List.range Ntimes, injectBad idx (fdata sinq xdata ydata),
        xgrid, ygrid, fgrid triang linInterp sinq xdata ydata idx⟩ :=
  ⟨rfl, rfl⟩

/-- C7: every loop in the notebooks is a bounded iteration over a finite
range: the interpolation loop runs exactly `Ntimes = 20` iterations (one
gridded field per iteration), the storm loop performs at most one
iteration per storm record, and the decade loop performs exactly one
iteration per decade; there is no recursion beyond these structural
folds over finite lists, so every cell terminates. -/
theorem C7_loops_bounded {T V : Type}
    (triang : List ℚ → List ℚ → T) (linInterp : T → List (Option ℚ) → ℚ → ℚ → V)
    (sinq : ℚ → ℚ) (xdata ydata : List ℚ) (idx : List ℕ) :
    (fgrid triang linInterp sinq xdata ydata idx).length = 20 ∧
    Ntimes = 20 ∧
    (∀ ss : List StormRec, stormLoopSteps ss ≤ ss.length) ∧
    (∀ ds : List DecadeRec, decadeLoopSteps ds = ds.length) := by
  refine ⟨?_, rfl, stormLoopSteps_le, decadeLoopSteps_eq⟩
  simp [fgrid, Ntimes]

/-- C8: for every variable name, the subscript access `nc[name]` denotes
the same variable as the dictionary access `nc.variables[name]`, and for
a three-dimensional array the partial index `a[0]` yields the same
two-dimensional array as the fully written slice `a[0, :, :]`. -/
theorem C8_subscript_and_slice_agree (ds : Dataset) (name : String)
    (a : List (List (List ℚ))) (i : ℕ) :
    ncGetitem ds.vars name = ds.vars.lookup name ∧
    sliceFirst a i = sliceFirstFull a i := by
  refine ⟨ncGetitem_eq_lookup ds.vars name, ?_⟩
  unfold sliceFirst sliceFirstFull
  rw [fullSlice2_eq]

/-- C9: when every coordinate location of the hurricane data parses to at
least two numbers (longitude, latitude, and usually altitude), every
track collected by the reading loop is a two-column array — each row is
a location row truncated to its first two components — so the plot
accesses `track[:, 0]` and `track[:, 1]` are in bounds for every
collected track. -/
theorem C9_tracks_two_columns (ds : List DecadeRec)
    (hd : ∀ d ∈ ds, ∀ ss, d = some ss → ∀ s ∈ ss, ∀ locs,
      s = StormRec.line locs → ∀ r ∈ locs, 2 ≤ r.length) :
    ∀ t ∈ runDecades [] ds, ∀ r ∈ t,
      r.length = 2 ∧ 0 < r.length ∧ 1 < r.length := by
  intro t ht r hr
  have h2 := runDecades_rows_two ds hd [] (by simp) t ht r hr
  exact ⟨h2, by omega, by omega⟩

/-- Concrete hurricane data for the C9 witness: one decade, one storm,
two locations of three numbers each. -/
def sampleDecades : List DecadeRec :=
  [some [StormRec.line [[1, 2, 9], [3, 4, 9]]]]

/-- Witness for C9 at the concrete data `sampleDecades`. -/
theorem C9_witness :
    (∀ d ∈ sampleDecades, ∀ ss, d = some ss → ∀ s ∈ ss, ∀ locs,
      s = StormRec.line locs → ∀ r ∈ locs, 2 ≤ r.length) ∧
    (∀ t ∈ runDecades [] sampleDecades, ∀ r ∈ t,
      r.length = 2 ∧ 0 < r.length ∧ 1 < r.length) := by
  have h : ∀ d ∈ sampleDecades, ∀ ss, d = some ss → ∀ s ∈ ss, ∀ locs,
      s = StormRec.line locs → ∀ r ∈ locs, 2 ≤ r.length := by
    intro d hd ss hss s hs locs hlocs r hr
    simp only [sampleDecades, List.mem_singleton] at hd
    subst hd
    cases hss
    simp only [List.mem_singleton] at hs
    subst hs
    cases hlocs
    simp only [List.mem_cons, List.mem_singleton] at hr
    rcases hr with rfl | rfl | h0
    · simp
    · simp
    · simp at h0
  exact ⟨h, C9_tracks_two_columns sampleDecades h⟩

/-- C10: for every time step `n`, at most `Nbad = 200` of the 1000
scattered values `fdata[n]` are NaN, so the mask `igood` selects at
least 800 points and the triangulation in the interpolation loop is
always built from at least three input points. -/
theorem C10_triangulation_input_nonempty (sinq : ℚ → ℚ)
    (xdata ydata : List ℚ) (idx : List ℕ)
    (hx : xdata.length = Ndatapoints) (hy : ydata.length = Ndatapoints)
    (n : ℕ) (hn : n < Ntimes) :
    ((injectBad idx (fdata sinq xdata ydata)).getD n []).countP
      (fun v => v.isNone) ≤ Nbad ∧
    800 ≤ (maskSel (igoodOf ((injectBad idx (fdata sinq xdata ydata)).getD n []))
      xdata).length ∧
    3 ≤ (maskSel (igoodOf ((injectBad idx (fdata sinq xdata ydata)).getD n []))
      xdata).length := by
  have h1 := row_countP_isNone_le sinq xdata ydata idx hx hy n hn
  have h2 := goodPoints_count sinq xdata ydata idx hx hy n hn
  refine ⟨h1, ?_, ?_⟩ <;> simp [Ndatapoints, Nbad] at h2 ⊢ <;> omega

/-- Witness for C10 at a concrete input: constant scattered data and an
empty bad-index list, at time step 0. -/
theorem C10_witness :
    (List.replicate Ndatapoints (0 : ℚ)).length = Ndatapoints ∧
    0 < Ntimes ∧
    ((injectBad [] (fdata id (List.replicate Ndatapoints 0)
      (List.replicate Ndatapoints 0))).getD 0 []).countP
      (fun v => v.isNone) ≤ Nbad :=
  ⟨by simp, by decide,
   (C10_triangulation_input_nonempty id (List.replicate Ndatapoints 0)
     (List.replicate Ndatapoints 0) [] (by simp) (by simp) 0 (by decide)).1⟩

end Py4Geo
